import Mathlib

/-!
Shallow embedding of the Alfred repository's plugin registry/executor
(`src/tools/plugin_executor.py`), model router (`src/orchestrator/llm_router.py`)
and task orchestrator (`src/orchestrator/core.py`), together with theorems
settling the specification claims about them.

Python strings are modelled as Lean `String` (a wrapper around `List Char`);
the Python `str` operations used by the source (`split`, `strip`, `startswith`,
`in`, `lower`, slicing, `join`) are re-implemented faithfully below.
Python `dict`s are modelled as insertion-ordered association lists.
Side effects (file system, subprocess, dynamic module loading) are modelled as
explicit environments; a raised Python exception is an `Except.error` carrying
the exception's message.
-/

set_option maxRecDepth 4000

namespace Alfred

/-! ### Python string primitives over `List Char` -/

/-- Python `l.startswith(p)` at the character-list level. -/
def prefixCh : List Char → List Char → Bool
  | [], _ => true
  | _ :: _, [] => false
  | a :: as, b :: bs => a == b && prefixCh as bs

/-- Python `n in h` (substring containment). -/
def infixCh (needle : List Char) : List Char → Bool
  | [] => needle.isEmpty
  | b :: t => prefixCh needle (b :: t) || infixCh needle t

/-- Python `s.split(c)` with a one-character separator (no maxsplit):
`n` separators yield `n+1` pieces, empty pieces included. -/
def splitCh (c : Char) : List Char → List (List Char)
  | [] => [[]]
  | x :: xs =>
    if x == c then [] :: splitCh c xs
    else
      match splitCh c xs with
      | [] => [[x]]
      | y :: ys => (x :: y) :: ys

/-- Python `s.split(c, 1)`: split on the first occurrence only. -/
def split1 (c : Char) : List Char → List (List Char)
  | [] => [[]]
  | x :: xs =>
    if x == c then [[], xs]
    else
      match split1 c xs with
      | [] => [[x]]
      | y :: ys => (x :: y) :: ys

/-- Python `sep.join(xs)` at the character-list level. -/
def joinSep (sep : List Char) : List (List Char) → List Char
  | [] => []
  | [x] => x
  | x :: y :: ys => x ++ sep ++ joinSep sep (y :: ys)

/-- The characters Python's `str.strip()` removes. -/
def isPySpace (c : Char) : Bool :=
  c == ' ' || c == '\t' || c == '\n' || c == '\r' || c == Char.ofNat 11 || c == Char.ofNat 12

/-- Python `s.strip()` over a character list. -/
def stripList (l : List Char) : List Char :=
  ((l.dropWhile isPySpace).reverse.dropWhile isPySpace).reverse

/-- Python `s.strip(chars)` over a character list. -/
def stripCharsList (cs : List Char) (l : List Char) : List Char :=
  ((l.dropWhile (cs.contains ·)).reverse.dropWhile (cs.contains ·)).reverse

/-- The two quote characters stripped by the tool-call argument parser
(`value.strip().strip('"\x27')`): the double quote and the single quote. -/
def quoteChars : List Char := [Char.ofNat 34, Char.ofNat 39]

/-- Python `needle in hay` for strings. -/
def pyIn (needle hay : String) : Bool := infixCh needle.data hay.data

/-- Python `s.startswith(pre)`. -/
def pyStartswith (s pre : String) : Bool := prefixCh pre.data s.data

/-- Python `s[n:]`. -/
def pyDrop (n : Nat) (s : String) : String := ⟨s.data.drop n⟩

/-- Python `s.strip()`. -/
def pyStrip (s : String) : String := ⟨stripList s.data⟩

/-- Python `s.strip('"\x27')`. -/
def pyStripQuotes (s : String) : String := ⟨stripCharsList quoteChars s.data⟩

/-- Python `s.lower()` (ASCII-adequate). -/
def pyLower (s : String) : String := ⟨s.data.map Char.toLower⟩

/-- Python `s.split(c)` for strings. -/
def pySplit (c : Char) (s : String) : List String := (splitCh c s.data).map String.mk

/-- Python `sep.join(xs)` for strings. -/
def pyJoin (sep : String) (xs : List String) : String :=
  ⟨joinSep sep.data (xs.map String.data)⟩

/-! ### Python dicts as insertion-ordered association lists -/

/-- Dict lookup, `d.get(k)` / `d[k]`. -/
def dictGet? {α : Type} : List (String × α) → String → Option α
  | [], _ => none
  | (k, v) :: d, key => if k = key then some v else dictGet? d key

/-- Python `key in d`. -/
def dictMem {α : Type} (d : List (String × α)) (key : String) : Bool :=
  (dictGet? d key).isSome

/-- Dict assignment `d[key] = v`: replace in place if present, else append (insertion order). -/
def dictInsert {α : Type} : List (String × α) → String → α → List (String × α)
  | [], key, v => [(key, v)]
  | (k, w) :: d, key, v =>
    if k = key then (k, v) :: d else (k, w) :: dictInsert d key v

/-- Dict deletion, `del d[key]`. -/
def dictErase {α : Type} : List (String × α) → String → List (String × α)
  | [], _ => []
  | (k, w) :: d, key =>
    if k = key then dictErase d key else (k, w) :: dictErase d key

/-! ### Basic lemmas about the primitives -/

theorem dictGet?_insert_self {α : Type} (d : List (String × α)) (k : String) (v : α) :
    dictGet? (dictInsert d k v) k = some v := by
  induction d with
  | nil => simp [dictInsert, dictGet?]
  | cons hd tl ih =>
    obtain ⟨k', v'⟩ := hd
    by_cases h : k' = k <;> simp [dictInsert, dictGet?, h, ih]

theorem dictGet?_insert_ne {α : Type} (d : List (String × α)) (k k' : String) (v : α)
    (h : k ≠ k') : dictGet? (dictInsert d k v) k' = dictGet? d k' := by
  induction d with
  | nil => simp [dictInsert, dictGet?, h]
  | cons hd tl ih =>
    obtain ⟨k₀, v₀⟩ := hd
    by_cases h₀ : k₀ = k
    · subst h₀; simp [dictInsert, dictGet?, h]
    · simp [dictInsert, dictGet?, h₀, ih]

theorem dictGet?_erase_self {α : Type} (d : List (String × α)) (k : String) :
    dictGet? (dictErase d k) k = none := by
  induction d with
  | nil => simp [dictErase, dictGet?]
  | cons hd tl ih =>
    obtain ⟨k₀, v₀⟩ := hd
    by_cases h₀ : k₀ = k <;> simp [dictErase, dictGet?, h₀, ih]

theorem dictGet?_erase_ne {α : Type} (d : List (String × α)) (k k' : String)
    (h : k ≠ k') : dictGet? (dictErase d k) k' = dictGet? d k' := by
  induction d with
  | nil => simp [dictErase, dictGet?]
  | cons hd tl ih =>
    obtain ⟨k₀, v₀⟩ := hd
    by_cases h₀ : k₀ = k
    · subst h₀
      simp [dictErase, dictGet?, ih, h]
    · simp [dictErase, dictGet?, h₀, ih]

theorem dictMem_insert {α : Type} (d : List (String × α)) (k k' : String) (v : α) :
    dictMem (dictInsert d k v) k' = (decide (k = k') || dictMem d k') := by
  by_cases h : k = k'
  · subst h; simp [dictMem, dictGet?_insert_self]
  · simp [dictMem, dictGet?_insert_ne d k k' v h, h]

theorem dictMem_erase {α : Type} (d : List (String × α)) (k k' : String) :
    dictMem (dictErase d k) k' = (decide (k ≠ k') && dictMem d k') := by
  by_cases h : k = k'
  · subst h; simp [dictMem, dictGet?_erase_self]
  · simp [dictMem, dictGet?_erase_ne d k k' h, h]

theorem splitCh_ne_nil (c : Char) (l : List Char) : splitCh c l ≠ [] := by
  cases l with
  | nil => simp [splitCh]
  | cons x xs =>
    simp only [splitCh]
    split
    · simp
    · split <;> simp

theorem splitCh_not_mem (c : Char) (l : List Char) (h : c ∉ l) : splitCh c l = [l] := by
  induction l with
  | nil => simp [splitCh]
  | cons x xs ih =>
    simp only [List.mem_cons, not_or] at h
    have hx : (x == c) = false := by
      simp only [beq_eq_false_iff_ne]; exact fun hh => h.1 (by simp [hh])
    simp [splitCh, hx, ih h.2]

theorem splitCh_append_cons (c : Char) (a b : List Char) (h : c ∉ a) :
    splitCh c (a ++ c :: b) = a :: splitCh c b := by
  induction a with
  | nil => simp [splitCh]
  | cons x xs ih =>
    simp only [List.mem_cons, not_or] at h
    have hx : (x == c) = false := by
      simp only [beq_eq_false_iff_ne]; exact fun hh => h.1 (by simp [hh])
    simp [splitCh, hx, ih h.2]

theorem split1_not_mem (c : Char) (l : List Char) (h : c ∉ l) : split1 c l = [l] := by
  induction l with
  | nil => simp [split1]
  | cons x xs ih =>
    simp only [List.mem_cons, not_or] at h
    have hx : (x == c) = false := by
      simp only [beq_eq_false_iff_ne]; exact fun hh => h.1 (by simp [hh])
    simp [split1, hx, ih h.2]

theorem split1_append_cons (c : Char) (a b : List Char) (h : c ∉ a) :
    split1 c (a ++ c :: b) = [a, b] := by
  induction a with
  | nil => simp [split1]
  | cons x xs ih =>
    simp only [List.mem_cons, not_or] at h
    have hx : (x == c) = false := by
      simp only [beq_eq_false_iff_ne]; exact fun hh => h.1 (by simp [hh])
    simp [split1, hx, ih h.2]

theorem take_append_le (n : Nat) (p a : List Char) (h : n ≤ p.length) :
    (p ++ a).take n = p.take n := by
  induction p generalizing n with
  | nil =>
    simp only [List.length_nil, Nat.le_zero] at h
    simp [h]
  | cons x xs ih =>
    cases n with
    | zero => simp
    | succ m =>
      simp only [List.cons_append, List.take_succ_cons, List.cons.injEq, true_and]
      exact ih m (Nat.le_of_succ_le_succ h)

theorem append_ne_of_take_ne (p q a b : List Char) (n : Nat)
    (hp : n ≤ p.length) (hq : n ≤ q.length) (h : p.take n ≠ q.take n) :
    p ++ a ≠ q ++ b := by
  intro he
  apply h
  rw [← take_append_le n p a hp, ← take_append_le n q b hq, he]

theorem string_append_ne (p q s t : String) (n : Nat) (hp : n ≤ p.data.length)
    (hq : n ≤ q.data.length) (h : p.data.take n ≠ q.data.take n) : p ++ s ≠ q ++ t := by
  intro he
  have hd : (p ++ s).data = (q ++ t).data := congrArg String.data he
  rw [String.data_append, String.data_append] at hd
  exact append_ne_of_take_ne _ _ _ _ n hp hq h hd

/-! ### Data model of the plugin registry (`src/tools/plugin_executor.py`)

`PluginManifest` mirrors the dataclass of the same name.  A loaded Python
module is modelled by the named callables it exposes (`hasattr`/`getattr`
become an association-list lookup); a callable takes the keyword-argument
dict and either returns a result (already rendered by `str`, since that is
all the dispatcher does with it) or raises.  A plugin directory on disk is
modelled by the parse outcome of its `manifest.json` and by what dynamically
loading a given entry-point file yields (`none` = the entry file is missing
or executing it raised; `_load_plugin_module` swallows both identically).
-/

structure PluginManifest where
  name : String
  version : String
  description : String
  entry_point : String
  permissions : List String
  dependencies : List String
  enabled : Bool
deriving DecidableEq, Repr

structure Module where
  methods : List (String × (List (String × String) → Except String String))

structure PluginDirContent where
  manifestParse : Except String PluginManifest
  loadModule : String → Option Module

/-- In-memory registry state plus the manifest files in the plugin directory:
`plugins` and `plugin_modules` are the two dicts of `PluginExecutor`,
`disk` is the contents of `plugin_dir` keyed by subdirectory name. -/
structure ExecState where
  plugins : List (String × PluginManifest)
  plugin_modules : List (String × Module)
  disk : List (String × PluginDirContent)

/-- Outcome of `subprocess.run` on a given command. -/
inductive ShellOutcome where
  | completed (returncode : Int) (stdout stderr : String)
  | timedOut
  | raised (msg : String)

/-- External-world behaviour: whether writing `manifest.json` for a plugin
name raises (missing directory, permission error, ...), and what the shell
does with a command. -/
structure FSEnv where
  writeManifestFails : String → Bool
  shell : String → ShellOutcome

/-! ### `execute_plugin` and its four precondition errors -/

def msg_plugin_not_found (name : String) : String := "Plugin not found: " ++ name

def msg_plugin_not_enabled (name : String) : String := "Plugin not enabled: " ++ name

def msg_module_not_loaded (name : String) : String := "Plugin module not loaded: " ++ name

def msg_method_not_found (method name : String) : String :=
  "Method " ++ (method ++ (" not found in plugin " ++ name))

/-- Model of `PluginExecutor.execute_plugin`.  The four guarded `raise ValueError`s
become the four `Except.error` branches; the trailing `except ... raise`
merely logs and re-raises, i.e. it is the identity on the outcome, so the
body is the whole function.  The `signal`-based wall-clock timeout is real
time and is not modelled: a `TimeoutError` is one of the exceptional
outcomes a method's callable may produce. -/
def execute_plugin (st : ExecState) (name method : String)
    (kwargs : List (String × String)) : Except String String :=
  match dictGet? st.plugins name with
  | none => .error (msg_plugin_not_found name)
  | some manifest =>
    if manifest.enabled = false then .error (msg_plugin_not_enabled name)
    else
      match dictGet? st.plugin_modules name with
      | none => .error (msg_module_not_loaded name)
      | some module =>
        match dictGet? module.methods method with
        | none => .error (msg_method_not_found method name)
        | some f => f kwargs

/-! ### Shell-command path and its deny-list -/

def dangerous_substrings : List String := ["rm -rf", "sudo", "passwd", "del /f"]

/-- Model of `PluginExecutor._execute_shell_command`: deny-list check first, then the
subprocess call (its outcome supplied by the environment). -/
def execute_shell_command (env : FSEnv) (command : String) : String :=
  if dangerous_substrings.any (fun d => pyIn d command) then
    "Error: Dangerous command blocked"
  else
    match env.shell command with
    | .completed rc out err =>
      if rc = 0 then (if out = "" then "Command executed successfully" else out)
      else "Error (code " ++ toString rc ++ "): " ++ err
    | .timedOut => "Error: Command timed out"
    | .raised e => "Error: " ++ e

/-- A do-nothing environment used by concrete witnesses. -/
def envNoop : FSEnv :=
  { writeManifestFails := fun _ => false
    shell := fun _ => .completed 0 "" "" }

/-- C2: `execute_plugin` raises a distinct, descriptive error for each of the
four failure preconditions — name not registered, registered but not enabled,
enabled but module not loaded, method absent from the module — and the four
error messages are pairwise distinguishable for all plugin/method names. -/
theorem execute_plugin_four_distinct_errors (st : ExecState) (name method : String)
    (kwargs : List (String × String)) :
    (dictGet? st.plugins name = none →
      execute_plugin st name method kwargs = .error (msg_plugin_not_found name))
    ∧ (∀ m, dictGet? st.plugins name = some m → m.enabled = false →
      execute_plugin st name method kwargs = .error (msg_plugin_not_enabled name))
    ∧ (∀ m, dictGet? st.plugins name = some m → m.enabled = true →
      dictGet? st.plugin_modules name = none →
      execute_plugin st name method kwargs = .error (msg_module_not_loaded name))
    ∧ (∀ m mo, dictGet? st.plugins name = some m → m.enabled = true →
      dictGet? st.plugin_modules name = some mo → dictGet? mo.methods method = none →
      execute_plugin st name method kwargs = .error (msg_method_not_found method name))
    ∧ (∀ n₁ n₂ mth : String,
      msg_plugin_not_found n₁ ≠ msg_plugin_not_enabled n₂
      ∧ msg_plugin_not_found n₁ ≠ msg_module_not_loaded n₂
      ∧ msg_plugin_not_found n₁ ≠ msg_method_not_found mth n₂
      ∧ msg_plugin_not_enabled n₁ ≠ msg_module_not_loaded n₂
      ∧ msg_plugin_not_enabled n₁ ≠ msg_method_not_found mth n₂
      ∧ msg_module_not_loaded n₁ ≠ msg_method_not_found mth n₂) := by
  refine ⟨?_, ?_, ?_, ?_, ?_⟩
  · intro h; simp [execute_plugin, h]
  · intro m hm he; simp [execute_plugin, hm, he]
  · intro m hm he hmod; simp [execute_plugin, hm, he, hmod]
  · intro m mo hm he hmod hmth; simp [execute_plugin, hm, he, hmod, hmth]
  · intro n₁ n₂ mth
    refine ⟨?_, ?_, ?_, ?_, ?_, ?_⟩
    · exact string_append_ne _ _ _ _ 12 (by decide) (by decide) (by decide)
    · exact string_append_ne _ _ _ _ 8 (by decide) (by decide) (by decide)
    · exact string_append_ne _ _ _ _ 1 (by decide) (by decide) (by decide)
    · exact string_append_ne _ _ _ _ 8 (by decide) (by decide) (by decide)
    · exact string_append_ne _ _ _ _ 1 (by decide) (by decide) (by decide)
    · exact string_append_ne _ _ _ _ 1 (by decide) (by decide) (by decide)

/-- A concrete manifest for the sample `calc` plugin, disabled. -/
def calcManifestOff : PluginManifest :=
  { name := "calc", version := "1", description := "", entry_point := "calc.py",
    permissions := [], dependencies := [], enabled := false }

/-- A registry holding one disabled plugin named `calc`, no module loaded. -/
def stCalcOff : ExecState :=
  { plugins := [("calc", calcManifestOff)], plugin_modules := [], disk := [] }

/-- Witness for C2 at the concrete state `stCalcOff`. -/
theorem execute_plugin_four_distinct_errors_witness :
    execute_plugin stCalcOff "calc" "add" [] = .error (msg_plugin_not_enabled "calc") :=
  (execute_plugin_four_distinct_errors stCalcOff "calc" "add" []).2.1
    calcManifestOff (by decide) rfl

/-- C8: a shell command containing any deny-listed substring (in particular
`rm -rf`) is answered with the explicit blocked message, and the outcome does
not depend on the shell environment at all — the subprocess is never started. -/
theorem shell_denylist_blocks (env : FSEnv) (command : String)
    (h : ∃ d ∈ dangerous_substrings, pyIn d command = true) :
    execute_shell_command env command = "Error: Dangerous command blocked"
    ∧ ∀ env₂ : FSEnv,
        execute_shell_command env₂ command = execute_shell_command env command := by
  obtain ⟨d, hd, hin⟩ := h
  have hany : dangerous_substrings.any (fun d => pyIn d command) = true :=
    List.any_eq_true.mpr ⟨d, hd, hin⟩
  constructor
  · simp [execute_shell_command, hany]
  · intro env₂; simp [execute_shell_command, hany]

/-- Witness for C8 on the literal command `rm -rf /tmp/x`. -/
theorem shell_denylist_blocks_witness :
    execute_shell_command envNoop "rm -rf /tmp/x" = "Error: Dangerous command blocked" :=
  (shell_denylist_blocks envNoop "rm -rf /tmp/x" ⟨"rm -rf", by decide, by decide⟩).1

/-! ### Tool-call parsing and dispatch-from-text -/

/-- The body of the `for arg in args_str.split(',')` loop: if the piece
contains `=`, split on the first `=` and store
`args[key.strip()] = value.strip().strip('"\x27')`; otherwise skip it. -/
def argStep (d : List (String × String)) (arg : List Char) : List (String × String) :=
  if '=' ∈ arg then
    let kv := split1 '=' arg
    dictInsert d (String.mk (stripList (kv.headD [])))
      (String.mk (stripCharsList quoteChars (stripList ((kv.drop 1).headD []))))
  else d

/-- The parsing portion of `PluginExecutor._execute_tool_call`
(format `plugin_name.method_name(key=value, ...)`): `none` is the
`'.' not in tool_call or '(' not in tool_call` early return, otherwise the
plugin name (before the first `.`), the method name (before the first `(` of
the remainder) and the argument dict built by naive comma/equals splitting,
keys stripped of whitespace, values stripped of whitespace then quotes. -/
def parseToolCall (tool_call : String) :
    Option (String × String × List (String × String)) :=
  if '.' ∉ tool_call.data ∨ '(' ∉ tool_call.data then none
  else
    let parts := split1 '.' tool_call.data
    let plugin_name := parts.headD []
    let method_part := (parts.drop 1).headD []
    let method_name := (splitCh '(' method_part).headD []
    let args :=
      if '(' ∈ method_part ∧ ')' ∈ method_part then
        let args_str := (splitCh ')' (((splitCh '(' method_part).drop 1).headD [])).headD []
        (splitCh ',' args_str).foldl argStep []
      else []
    some (String.mk plugin_name, String.mk method_name, args)

/-- Model of `PluginExecutor._execute_tool_call`: parse, dispatch through
`execute_plugin` (`str(result)` is the identity in the model), and catch any
raised exception into the `Tool execution error:` string. -/
def execute_tool_call (st : ExecState) (tool_call : String) : String :=
  match parseToolCall tool_call with
  | none => "Error: Invalid tool call format"
  | some (pn, mn, args) =>
    match execute_plugin st pn mn args with
    | .ok result => result
    | .error e => "Tool execution error: " ++ e

/-- A single-quote character as a string. -/
def sq : String := ⟨[Char.ofNat 39]⟩

/-- Model of `PluginExecutor._execute_web_search` (a stub in the source). -/
def execute_web_search (query : String) : String :=
  "Web search for " ++ sq ++ query ++ sq ++ " would be executed here"

/-- The per-line pattern matching of `execute_from_response`: strip the line,
test the three literal prefixes in order, run the matching handler and wrap
its result; `none` when no prefix matches. -/
def processLine (env : FSEnv) (st : ExecState) (rawLine : String) : Option String :=
  let line := pyStrip rawLine
  if pyStartswith line "execute:" then
    let command := pyStrip (pyDrop 8 line)
    some ("Command: " ++ command ++ "\nOutput: " ++ execute_shell_command env command)
  else if pyStartswith line "search:" then
    let query := pyStrip (pyDrop 7 line)
    some ("Search: " ++ query ++ "\nResults: " ++ execute_web_search query)
  else if pyStartswith line "tool:" then
    let tool_call := pyStrip (pyDrop 5 line)
    some ("Tool: " ++ tool_call ++ "\nResult: " ++ execute_tool_call st tool_call)
  else none

/-- Model of `PluginExecutor.execute_from_response`: split the response on newlines,
process each line in order accumulating results, and return the accumulated
results joined by blank lines, or `None` if no line matched.  (The function's
own `except` clause is unreachable: every per-line handler catches its
exceptions internally and returns a string.) -/
def execute_from_response (env : FSEnv) (st : ExecState) (response : String) :
    Option String :=
  let lines := pySplit '\n' response
  let results := lines.foldl (fun acc line =>
    match processLine env st line with
    | some r => acc ++ [r]
    | none => acc) []
  if results.isEmpty then none else some (pyJoin "\n\n" results)

/-! ### Registry mutation: load, toggle, install -/

/-- Model of `PluginExecutor._load_plugin_module` as called from `toggle_plugin`:
load the entry-point file of the plugin's directory on disk; any failure
(missing entry file, exception while executing the module) is caught and
yields no module. -/
def load_plugin_module (st : ExecState) (name : String) (manifest : PluginManifest) :
    Option Module :=
  match dictGet? st.disk name with
  | some dir => dir.loadModule manifest.entry_point
  | none => none

/-- Model of `PluginExecutor._load_plugin` for a plugin directory with the given
content: parse the manifest (a parse failure is caught and leaves the state
unchanged), register it under its `name`, and, if it is enabled, attempt to
load its module (a load failure is caught and leaves the module absent). -/
def load_plugin (st : ExecState) (dir : PluginDirContent) : ExecState :=
  match dir.manifestParse with
  | .error _ => st
  | .ok manifest =>
    if manifest.enabled then
      match dir.loadModule manifest.entry_point with
      | some m =>
        { st with plugins := dictInsert st.plugins manifest.name manifest,
                  plugin_modules := dictInsert st.plugin_modules manifest.name m }
      | none => { st with plugins := dictInsert st.plugins manifest.name manifest }
    else { st with plugins := dictInsert st.plugins manifest.name manifest }

/-- Model of `PluginExecutor._load_plugins`: discovery folds `_load_plugin` over the
subdirectories of the plugin root that contain a `manifest.json`. -/
def load_plugins (st : ExecState) (dirs : List PluginDirContent) : ExecState :=
  dirs.foldl load_plugin st

/-- Writing `manifest.json` for plugin `name` when the write succeeds:
the directory's manifest content is replaced (the file is created if the
directory entry was absent, with no loadable entry point). -/
def diskWriteManifest (disk : List (String × PluginDirContent)) (name : String)
    (m : PluginManifest) : List (String × PluginDirContent) :=
  match dictGet? disk name with
  | some dir => dictInsert disk name { dir with manifestParse := .ok m }
  | none => dictInsert disk name { manifestParse := .ok m, loadModule := fun _ => none }

/-- Model of `PluginExecutor.toggle_plugin`.  Note the in-place mutation order of the
source: the in-memory `manifest.enabled` flag is set *before* the manifest
file is written, so a failing write (modelled by `env.writeManifestFails`)
leaves the flag already flipped while returning `False` and touching neither
the module dict nor the disk. -/
def toggle_plugin (env : FSEnv) (st : ExecState) (name : String) (enabled : Bool) :
    ExecState × Bool :=
  match dictGet? st.plugins name with
  | none => (st, false)
  | some manifest =>
    let manifest' := { manifest with enabled := enabled }
    let st1 := { st with plugins := dictInsert st.plugins name manifest' }
    if env.writeManifestFails name then (st1, false)
    else
      let st2 := { st1 with disk := diskWriteManifest st1.disk name manifest' }
      if enabled ∧ dictMem st2.plugin_modules name = false then
        match load_plugin_module st2 name manifest' with
        | some m =>
          ({ st2 with plugin_modules := dictInsert st2.plugin_modules name m }, true)
        | none => (st2, true)
      else if enabled = false ∧ dictMem st2.plugin_modules name then
        ({ st2 with plugin_modules := dictErase st2.plugin_modules name }, true)
      else (st2, true)

/-- An install source: whether the path exists, whether it has a
`manifest.json`, the directory content that would be copied, and whether the
`shutil.rmtree` / `shutil.copytree` calls raise. -/
structure SourceDesc where
  present : Bool
  hasManifest : Bool
  content : PluginDirContent
  rmtreeFails : Bool
  copyFails : Bool

/-- Model of `PluginExecutor.install_plugin`: validate the source, parse its manifest,
remove any prior install of the same name, copy the directory into the plugin
root, and `_load_plugin` the result.  Any raised step is caught into a
`False` return (note that a failing copy after a successful `rmtree` has
already deleted the prior install from disk). -/
def install_plugin (st : ExecState) (src : SourceDesc) : ExecState × Bool :=
  if src.present = false then (st, false)
  else if src.hasManifest = false then (st, false)
  else
    match src.content.manifestParse with
    | .error _ => (st, false)
    | .ok manifest =>
      if dictMem st.disk manifest.name then
        if src.rmtreeFails then (st, false)
        else
          let st1 := { st with disk := dictErase st.disk manifest.name }
          if src.copyFails then (st1, false)
          else
            let st2 := { st1 with disk := dictInsert st1.disk manifest.name src.content }
            (load_plugin st2 src.content, true)
      else
        if src.copyFails then (st, false)
        else
          let st2 := { st with disk := dictInsert st.disk manifest.name src.content }
          (load_plugin st2 src.content, true)

/-! ### Lemmas about the collection fold, joins and splits -/

theorem foldl_collect (f : String → Option String) (ls : List String) (acc : List String) :
    ls.foldl (fun acc line =>
      match f line with
      | some r => acc ++ [r]
      | none => acc) acc
    = acc ++ ls.filterMap f := by
  induction ls generalizing acc with
  | nil => simp
  | cons x xs ih =>
    cases hx : f x <;>
      simp [List.filterMap_cons, hx, ih, List.append_assoc]

theorem not_mem_joinSep (c d : Char) (xs : List (List Char)) (hcd : c ≠ d)
    (h : ∀ x ∈ xs, c ∉ x) : c ∉ joinSep [d] xs := by
  induction xs with
  | nil => simp [joinSep]
  | cons x xs ih =>
    cases xs with
    | nil =>
      simpa [joinSep] using h x (by simp)
    | cons y ys =>
      have hx := h x (by simp)
      have hrest := ih (fun z hz => h z (by simp [hz]))
      intro hc
      rcases List.mem_append.mp hc with h1 | h2
      · rcases List.mem_append.mp h1 with h3 | h4
        · exact hx h3
        · simp at h4; exact hcd h4
      · exact hrest h2

theorem splitCh_joinSep (c : Char) (xs : List (List Char)) (hne : xs ≠ [])
    (h : ∀ x ∈ xs, c ∉ x) : splitCh c (joinSep [c] xs) = xs := by
  induction xs with
  | nil => exact absurd rfl hne
  | cons x xs ih =>
    cases xs with
    | nil =>
      simpa [joinSep] using splitCh_not_mem c x (h x (by simp))
    | cons y ys =>
      have hx : c ∉ x := h x (by simp)
      have hstep : joinSep [c] (x :: y :: ys) = x ++ c :: joinSep [c] (y :: ys) := by
        simp [joinSep]
      rw [hstep, splitCh_append_cons c x _ hx,
        ih (by simp) (fun z hz => h z (by simp [hz]))]

theorem dictGet?_append {α : Type} (a b : List (String × α)) (k : String) :
    dictGet? (a ++ b) k =
      match dictGet? a k with
      | some v => some v
      | none => dictGet? b k := by
  induction a with
  | nil => simp [dictGet?]
  | cons hd tl ih =>
    obtain ⟨k₀, v₀⟩ := hd
    by_cases h : k₀ = k <;> simp [dictGet?, h, ih]

theorem dictMem_append {α : Type} (a b : List (String × α)) (k : String) :
    dictMem (a ++ b) k = (dictMem a k || dictMem b k) := by
  simp only [dictMem, dictGet?_append]
  cases dictGet? a k <;> simp

theorem dictInsert_not_mem {α : Type} (d : List (String × α)) (k : String) (v : α)
    (h : dictMem d k = false) : dictInsert d k v = d ++ [(k, v)] := by
  induction d with
  | nil => simp [dictInsert]
  | cons hd tl ih =>
    obtain ⟨k₀, v₀⟩ := hd
    by_cases h₀ : k₀ = k
    · subst h₀; simp [dictMem, dictGet?] at h
    · simp only [dictMem, dictGet?, h₀, if_neg h₀] at h
      simp [dictInsert, h₀, ih h]

theorem foldl_dictInsert_append {α : Type} (pairs : List (String × α))
    (acc : List (String × α))
    (hdisj : ∀ kv ∈ pairs, dictMem acc kv.1 = false)
    (hnd : (pairs.map Prod.fst).Nodup) :
    pairs.foldl (fun d kv => dictInsert d kv.1 kv.2) acc = acc ++ pairs := by
  induction pairs generalizing acc with
  | nil => simp
  | cons kv tl ih =>
    obtain ⟨k, v⟩ := kv
    simp only [List.foldl_cons]
    have h1 : dictMem acc k = false := hdisj (k, v) (by simp)
    rw [dictInsert_not_mem acc k v h1]
    have hnd1 : (k :: tl.map Prod.fst).Nodup := by simpa using hnd
    have hnd0 := List.nodup_cons.mp hnd1
    have step : tl.foldl (fun d kv => dictInsert d kv.1 kv.2) (acc ++ [(k, v)])
        = (acc ++ [(k, v)]) ++ tl := by
      refine ih (acc ++ [(k, v)]) ?_ hnd0.2
      intro kv' hkv'
      have hne : ¬ k = kv'.1 := by
        intro he
        exact hnd0.1 (he ▸ List.mem_map.mpr ⟨kv', hkv', rfl⟩)
      have h2 : dictMem acc kv'.1 = false := hdisj kv' (by simp [hkv'])
      have h3 : dictMem [(k, v)] kv'.1 = false := by
        simp [dictMem, dictGet?, hne]
      rw [dictMem_append, h2, h3]
      rfl
    rw [step, List.append_assoc]
    simp

theorem foldl_argStep (pairs : List (String × String)) (acc : List (String × String))
    (hk : ∀ kv ∈ pairs, '=' ∉ kv.1.data) :
    (pairs.map (fun kv => kv.1.data ++ '=' :: kv.2.data)).foldl argStep acc
    = pairs.foldl (fun d kv =>
        dictInsert d (pyStrip kv.1) (pyStripQuotes (pyStrip kv.2))) acc := by
  induction pairs generalizing acc with
  | nil => simp
  | cons kv tl ih =>
    obtain ⟨k, v⟩ := kv
    have hkk : '=' ∉ k.data := hk (k, v) (by simp)
    have hmem : '=' ∈ k.data ++ '=' :: v.data :=
      List.mem_append.mpr (Or.inr (List.mem_cons_self _ _))
    have hsplit : split1 '=' (k.data ++ '=' :: v.data) = [k.data, v.data] :=
      split1_append_cons '=' k.data v.data hkk
    simp only [List.map_cons, List.foldl_cons, argStep, if_pos hmem, hsplit]
    have harg : dictInsert acc (String.mk (stripList ([k.data, v.data].headD [])))
        (String.mk (stripCharsList quoteChars (stripList (([k.data, v.data].drop 1).headD []))))
        = dictInsert acc (pyStrip k) (pyStripQuotes (pyStrip v)) := by
      simp [pyStrip, pyStripQuotes]
    rw [harg]
    exact ih _ (fun kv' h' => hk kv' (by simp [h']))

theorem args_fold_total (pairs : List (String × String))
    (hk : ∀ kv ∈ pairs, '=' ∉ kv.1.data)
    (hnd : (pairs.map (fun kv => pyStrip kv.1)).Nodup) :
    (pairs.map (fun kv => kv.1.data ++ '=' :: kv.2.data)).foldl argStep []
    = pairs.map (fun kv => (pyStrip kv.1, pyStripQuotes (pyStrip kv.2))) := by
  rw [foldl_argStep pairs [] hk]
  have hfold : pairs.foldl (fun d kv =>
        dictInsert d (pyStrip kv.1) (pyStripQuotes (pyStrip kv.2))) []
      = (pairs.map (fun kv => (pyStrip kv.1, pyStripQuotes (pyStrip kv.2)))).foldl
          (fun d kv => dictInsert d kv.1 kv.2) [] := by
    rw [List.foldl_map]
  rw [hfold]
  rw [foldl_dictInsert_append _ [] (fun kv _ => rfl) ?_]
  · simp
  · rw [List.map_map]
    simpa using hnd

theorem parseToolCall_empty_args (n m : String) (hn : '.' ∉ n.data) (hm : '(' ∉ m.data) :
    parseToolCall (n ++ "." ++ m ++ "()") = some (n, m, []) := by
  have hsplit1 : split1 '.' (n.data ++ '.' :: (m.data ++ ['(', ')']))
      = [n.data, m.data ++ ['(', ')']] := split1_append_cons '.' n.data _ hn
  have hsplitp : splitCh '(' (m.data ++ ['(', ')']) = [m.data, [')']] := by
    have h2 : splitCh '(' [')'] = [[')']] := by decide
    rw [show m.data ++ ['(', ')'] = m.data ++ '(' :: [')'] from rfl,
      splitCh_append_cons '(' m.data [')'] hm, h2]
  have hmem1 : '.' ∈ n.data ++ '.' :: (m.data ++ ['(', ')']) := by simp
  have hmem2 : '(' ∈ n.data ++ '.' :: (m.data ++ ['(', ')']) := by simp
  have hmempp : '(' ∈ m.data ++ ['(', ')'] := by simp
  have hmempc : ')' ∈ m.data ++ ['(', ')'] := by simp
  have hclose : splitCh ')' [')'] = [[], []] := by decide
  have hfold : (splitCh ',' ([] : List Char)).foldl argStep [] = [] := by decide
  simp [parseToolCall, hsplit1, hsplitp, hmem1, hmem2, hmempp, hmempc, hclose, hfold,
    String.data_append]

theorem parseToolCall_general (p m : String) (pairs : List (String × String))
    (hp : '.' ∉ p.data) (hm : '(' ∉ m.data) (hne : pairs ≠ [])
    (hstruct : ∀ kv ∈ pairs,
      (',' ∉ kv.1.data ∧ ',' ∉ kv.2.data)
      ∧ ('(' ∉ kv.1.data ∧ '(' ∉ kv.2.data)
      ∧ (')' ∉ kv.1.data ∧ ')' ∉ kv.2.data)
      ∧ '=' ∉ kv.1.data)
    (hnd : (pairs.map (fun kv => pyStrip kv.1)).Nodup) :
    parseToolCall (p ++ "." ++ m ++ "(" ++
        pyJoin "," (pairs.map (fun kv => kv.1 ++ "=" ++ kv.2)) ++ ")")
      = some (p, m, pairs.map (fun kv => (pyStrip kv.1, pyStripQuotes (pyStrip kv.2)))) := by
  set parts : List (List Char) := pairs.map (fun kv => kv.1.data ++ '=' :: kv.2.data)
    with hparts
  set D : List Char := p.data ++ '.' :: (m.data ++ '(' :: (joinSep [','] parts ++ [')']))
    with hD
  have hmapeq : (pairs.map (fun kv => kv.1 ++ "=" ++ kv.2)).map String.data = parts := by
    rw [List.map_map, hparts]
    congr 1
    funext kv
    show ((kv.1 ++ "=") ++ kv.2).data = kv.1.data ++ '=' :: kv.2.data
    rw [String.data_append, String.data_append,
      show ("=" : String).data = ['='] from rfl]
    simp
  have hstr : (p ++ "." ++ m ++ "(" ++
      pyJoin "," (pairs.map (fun kv => kv.1 ++ "=" ++ kv.2)) ++ ")") = ⟨D⟩ := by
    apply String.ext
    show ((((p ++ ".") ++ m) ++ "(") ++
      pyJoin "," (pairs.map (fun kv => kv.1 ++ "=" ++ kv.2)) ++ ")").data = D
    rw [String.data_append, String.data_append, String.data_append, String.data_append,
      String.data_append]
    have hJ : (pyJoin "," (pairs.map (fun kv => kv.1 ++ "=" ++ kv.2))).data
        = joinSep [','] parts := by
      show joinSep (",".data) ((pairs.map (fun kv => kv.1 ++ "=" ++ kv.2)).map String.data)
        = joinSep [','] parts
      rw [hmapeq, show ("," : String).data = [','] from rfl]
    rw [hJ, hD, show ("." : String).data = ['.'] from rfl,
      show ("(" : String).data = ['('] from rfl,
      show (")" : String).data = [')'] from rfl]
    simp
  have hpartsmem : ∀ x ∈ parts, ',' ∉ x ∧ '(' ∉ x ∧ ')' ∉ x := by
    intro x hx
    rw [hparts] at hx
    obtain ⟨kv, hkv, rfl⟩ := List.mem_map.mp hx
    obtain ⟨⟨hc1, hc2⟩, ⟨hq1, hq2⟩, ⟨hr1, hr2⟩, _⟩ := hstruct kv hkv
    refine ⟨?_, ?_, ?_⟩
    · intro hmem
      rcases List.mem_append.mp hmem with h | h
      · exact hc1 h
      · rcases List.mem_cons.mp h with h | h
        · exact absurd h (by decide)
        · exact hc2 h
    · intro hmem
      rcases List.mem_append.mp hmem with h | h
      · exact hq1 h
      · rcases List.mem_cons.mp h with h | h
        · exact absurd h (by decide)
        · exact hq2 h
    · intro hmem
      rcases List.mem_append.mp hmem with h | h
      · exact hr1 h
      · rcases List.mem_cons.mp h with h | h
        · exact absurd h (by decide)
        · exact hr2 h
  have hpne : parts ≠ [] := by
    rw [hparts]
    simpa using hne
  have hAparen : '(' ∉ joinSep [','] parts :=
    not_mem_joinSep '(' ',' parts (by decide) (fun x hx => (hpartsmem x hx).2.1)
  have hAclose : ')' ∉ joinSep [','] parts :=
    not_mem_joinSep ')' ',' parts (by decide) (fun x hx => (hpartsmem x hx).2.2)
  have hsplit1 : split1 '.' D
      = [p.data, m.data ++ '(' :: (joinSep [','] parts ++ [')'])] := by
    rw [hD]
    exact split1_append_cons '.' p.data _ hp
  have hsplitp : splitCh '(' (m.data ++ '(' :: (joinSep [','] parts ++ [')']))
      = [m.data, joinSep [','] parts ++ [')']] := by
    rw [splitCh_append_cons '(' m.data _ hm]
    rw [splitCh_not_mem '(' _ ?_]
    intro hmem
    rcases List.mem_append.mp hmem with h | h
    · exact hAparen h
    · simp at h
  have hsplitc : splitCh ')' (joinSep [','] parts ++ [')'])
      = [joinSep [','] parts, []] := by
    rw [show joinSep [','] parts ++ [')'] = joinSep [','] parts ++ ')' :: [] from rfl,
      splitCh_append_cons ')' _ [] hAclose]
    rfl
  have hsplitcomma : splitCh ',' (joinSep [','] parts) = parts :=
    splitCh_joinSep ',' parts hpne (fun x hx => (hpartsmem x hx).1)
  have hfold : parts.foldl argStep []
      = pairs.map (fun kv => (pyStrip kv.1, pyStripQuotes (pyStrip kv.2))) := by
    rw [hparts]
    exact args_fold_total pairs (fun kv h => (hstruct kv h).2.2.2) hnd
  have hdotD : '.' ∈ D := by rw [hD]; simp
  have hparenD : '(' ∈ D := by rw [hD]; simp
  have hmempp : '(' ∈ m.data ++ '(' :: (joinSep [','] parts ++ [')']) := by simp
  have hmempc : ')' ∈ m.data ++ '(' :: (joinSep [','] parts ++ [')']) := by simp
  rw [hstr]
  simp [parseToolCall, hsplit1, hsplitp, hsplitc, hsplitcomma, hfold, hdotD, hparenD,
    hmempp, hmempc]

/-- C4: dispatch-from-text equals, line by line, the filter-map of the
per-line handler over the newline-split response, joined in encounter order;
a line contributes nothing exactly when its stripped form starts with none of
the three literal prefixes; and if no line matches, the result is `none`. -/
theorem execute_from_response_spec (env : FSEnv) (st : ExecState) (response : String) :
    execute_from_response env st response =
      (if ((pySplit '\n' response).filterMap (processLine env st)).isEmpty then none
       else some (pyJoin "\n\n" ((pySplit '\n' response).filterMap (processLine env st))))
    ∧ (∀ l : String, processLine env st l = none ↔
        (pyStartswith (pyStrip l) "execute:" = false
         ∧ pyStartswith (pyStrip l) "search:" = false
         ∧ pyStartswith (pyStrip l) "tool:" = false))
    ∧ ((∀ l ∈ pySplit '\n' response, processLine env st l = none) →
        execute_from_response env st response = none) := by
  have h1 : execute_from_response env st response =
      (if ((pySplit '\n' response).filterMap (processLine env st)).isEmpty then none
       else some (pyJoin "\n\n" ((pySplit '\n' response).filterMap (processLine env st)))) := by
    simp only [execute_from_response]
    rw [foldl_collect (processLine env st) (pySplit '\n' response) []]
    simp
  refine ⟨h1, ?_, ?_⟩
  · intro l
    simp only [processLine]
    split_ifs with he hs ht <;> simp_all
  · intro hall
    rw [h1, List.filterMap_eq_nil_iff.mpr hall]
    simp

/-- Witness for C4: a response with no matching line yields `none`. -/
theorem execute_from_response_spec_witness :
    execute_from_response envNoop stCalcOff "hello world" = none :=
  (execute_from_response_spec envNoop stCalcOff "hello world").2.2 (by decide)

/-- The manifest that `create_sample_plugins` writes for the sample
calculator plugin. -/
def calculatorManifest : PluginManifest :=
  { name := "calculator", version := "1.0.0", description := "Basic calculator plugin",
    entry_point := "calculator.py", permissions := ["compute"], dependencies := [],
    enabled := true }

/-- A registry with the calculator plugin enabled and loaded, its `add`
method being the given callable. -/
def stCalculator (f : List (String × String) → Except String String) : ExecState :=
  { plugins := [("calculator", calculatorManifest)]
    plugin_modules := [("calculator", ⟨[("add", f)]⟩)]
    disk := [] }

/-- C3: the line `calculator.add(a=2,b=3)` parses to plugin `calculator`,
method `add`, string-valued keyword arguments `a="2"`, `b="3"`, and is
dispatched with exactly those strings (no coercion); in general, a tool line
`pluginName.methodName(key=value, ...)` yields one string-valued argument per
comma-separated `key=value` pair, the key stripped of whitespace and the
value stripped of whitespace and quote characters. -/
theorem tool_line_parsing_spec :
    (∀ (p m : String) (pairs : List (String × String)),
      '.' ∉ p.data → '(' ∉ m.data → pairs ≠ [] →
      (∀ kv ∈ pairs,
        (',' ∉ kv.1.data ∧ ',' ∉ kv.2.data)
        ∧ ('(' ∉ kv.1.data ∧ '(' ∉ kv.2.data)
        ∧ (')' ∉ kv.1.data ∧ ')' ∉ kv.2.data)
        ∧ '=' ∉ kv.1.data) →
      (pairs.map (fun kv => pyStrip kv.1)).Nodup →
      parseToolCall (p ++ "." ++ m ++ "(" ++
          pyJoin "," (pairs.map (fun kv => kv.1 ++ "=" ++ kv.2)) ++ ")")
        = some (p, m, pairs.map (fun kv => (pyStrip kv.1, pyStripQuotes (pyStrip kv.2)))))
    ∧ parseToolCall "calculator.add(a=2,b=3)"
        = some ("calculator", "add", [("a", "2"), ("b", "3")])
    ∧ (∀ (f : List (String × String) → Except String String) (r : String),
        f [("a", "2"), ("b", "3")] = .ok r →
        execute_tool_call (stCalculator f) "calculator.add(a=2,b=3)" = r) := by
  refine ⟨parseToolCall_general, by decide, ?_⟩
  intro f r hf
  have hparse : parseToolCall "calculator.add(a=2,b=3)"
      = some ("calculator", "add", [("a", "2"), ("b", "3")]) := by decide
  unfold execute_tool_call
  rw [hparse]
  have hexec : execute_plugin (stCalculator f) "calculator" "add"
      [("a", "2"), ("b", "3")] = f [("a", "2"), ("b", "3")] := rfl
  show (match execute_plugin (stCalculator f) "calculator" "add"
      [("a", "2"), ("b", "3")] with
    | .ok result => result
    | .error e => "Tool execution error: " ++ e) = r
  rw [hexec, hf]

/-- Witness for C3: the general parse theorem instantiated at the
calculator example. -/
theorem tool_line_parsing_spec_witness :
    parseToolCall ("calculator" ++ "." ++ "add" ++ "(" ++
        pyJoin "," (([("a", "2"), ("b", "3")] : List (String × String)).map
          (fun kv => kv.1 ++ "=" ++ kv.2)) ++ ")")
      = some ("calculator", "add",
          ([("a", "2"), ("b", "3")] : List (String × String)).map
            (fun kv => (pyStrip kv.1, pyStripQuotes (pyStrip kv.2)))) :=
  tool_line_parsing_spec.1 "calculator" "add" [("a", "2"), ("b", "3")]
    (by decide) (by decide) (by decide) (by decide) (by decide)

/-- A module whose `boom` method always raises. -/
def boomModule : Module := ⟨[("boom", fun _ => .error "kaboom")]⟩

/-- An enabled, loaded plugin `calc` whose only method raises. -/
def stBoom : ExecState :=
  { plugins := [("calc",
      { name := "calc", version := "1", description := "", entry_point := "calc.py",
        permissions := [], dependencies := [], enabled := true })]
    plugin_modules := [("calc", boomModule)]
    disk := [] }

/-- Counterexample to C1 as stated: an exception raised inside plugin
invocation during dispatch-from-text is caught, but `execute_from_response`
does not return a sentinel failure value (`false`/empty/`None`) — it returns
a non-`None` result block with the error rendered as text. -/
theorem dispatch_internal_error_not_sentinel :
    execute_plugin stBoom "calc" "boom" [] = .error "kaboom"
    ∧ execute_from_response envNoop stBoom "tool:calc.boom()"
        = some "Tool: calc.boom()\nResult: Tool execution error: kaboom"
    ∧ (some "Tool: calc.boom()\nResult: Tool execution error: kaboom"
        ≠ (none : Option String)) :=
  ⟨rfl, by decide, by decide⟩

/-- C1 (amended): registry-level operations never propagate an internal
exception — toggle and install return `false`, a failed load leaves the
state unchanged — while `execute_plugin` re-raises the method's exception
unchanged, and dispatch-from-text catches it and renders it as error text
inside its (non-`None`) string result. -/
theorem registry_error_containment (env : FSEnv) (st : ExecState) :
    (∀ name en, dictGet? st.plugins name = none →
      toggle_plugin env st name en = (st, false))
    ∧ (∀ name en, env.writeManifestFails name = true →
      (toggle_plugin env st name en).2 = false)
    ∧ (∀ src : SourceDesc,
        (src.present = false ∨ src.hasManifest = false ∨
          (∃ e, src.content.manifestParse = .error e)) →
        (install_plugin st src).2 = false)
    ∧ (∀ src : SourceDesc, src.copyFails = true → (install_plugin st src).2 = false)
    ∧ (∀ dir e, dir.manifestParse = .error e → load_plugin st dir = st)
    ∧ (∀ name method kwargs mo f e m,
        dictGet? st.plugins name = some m → m.enabled = true →
        dictGet? st.plugin_modules name = some mo →
        dictGet? mo.methods method = some f →
        f kwargs = .error e →
        execute_plugin st name method kwargs = .error e)
    ∧ (∀ tc pn mn args e, parseToolCall tc = some (pn, mn, args) →
        execute_plugin st pn mn args = .error e →
        execute_tool_call st tc = "Tool execution error: " ++ e) := by
  refine ⟨?_, ?_, ?_, ?_, ?_, ?_, ?_⟩
  · intro name en h
    simp [toggle_plugin, h]
  · intro name en hw
    cases hg : dictGet? st.plugins name with
    | none => simp [toggle_plugin, hg]
    | some manifest => simp [toggle_plugin, hg, hw]
  · intro src h
    by_cases h1 : src.present = false
    · simp [install_plugin, h1]
    · by_cases h2 : src.hasManifest = false
      · simp [install_plugin, h1, h2]
      · cases hmp : src.content.manifestParse with
        | error e => simp [install_plugin, h1, h2, hmp]
        | ok manifest =>
          rcases h with h | h | ⟨e, he⟩
          · exact absurd h h1
          · exact absurd h h2
          · rw [hmp] at he
            exact absurd he (by simp)
  · intro src hcf
    by_cases h1 : src.present = false
    · simp [install_plugin, h1]
    · by_cases h2 : src.hasManifest = false
      · simp [install_plugin, h1, h2]
      · cases hmp : src.content.manifestParse with
        | error e => simp [install_plugin, h1, h2, hmp]
        | ok manifest =>
          by_cases h3 : dictMem st.disk manifest.name
          · by_cases h4 : src.rmtreeFails
            · simp [install_plugin, h1, h2, hmp, h3, h4]
            · simp [install_plugin, h1, h2, hmp, h3, h4, hcf]
          · simp [install_plugin, h1, h2, hmp, h3, hcf]
  · intro dir e h
    simp [load_plugin, h]
  · intro name method kwargs mo f e m hm he hmo hf herr
    simp [execute_plugin, hm, he, hmo, hf, herr]
  · intro tc pn mn args e hp he
    simp [execute_tool_call, hp, he]

/-- Witness for C1 (amended): toggling an unknown name on the concrete
one-plugin registry returns `false` with the state untouched. -/
theorem registry_error_containment_witness :
    toggle_plugin envNoop stCalcOff "ghost" true = (stCalcOff, false) :=
  (registry_error_containment envNoop stCalcOff).1 "ghost" true (by decide)

/-! ### Toggle round-trip, atomicity, and the registry invariant -/

/-- The `enabled` flag recorded in a plugin's `manifest.json` on disk. -/
def manifestFlagOnDisk (st : ExecState) (name : String) : Option Bool :=
  match dictGet? st.disk name with
  | some dir =>
    match dir.manifestParse with
    | .ok m => some m.enabled
    | .error _ => none
  | none => none

/-- C10: toggle is not atomic w.r.t. persistence.  For a registered plugin,
a failing manifest write makes `toggle_plugin` return `false` with the
in-memory flag already set to the requested value, the module map and the
disk untouched; for an unknown name nothing at all changes. -/
theorem toggle_not_atomic (env : FSEnv) (st : ExecState) (name : String) (en : Bool) :
    (∀ m, dictGet? st.plugins name = some m → env.writeManifestFails name = true →
      toggle_plugin env st name en
        = ({ st with plugins := dictInsert st.plugins name { m with enabled := en } },
           false))
    ∧ (dictGet? st.plugins name = none → toggle_plugin env st name en = (st, false)) := by
  constructor
  · intro m hm hw
    simp [toggle_plugin, hm, hw]
  · intro h
    simp [toggle_plugin, h]

/-- An environment whose manifest writes always fail. -/
def envWriteFail : FSEnv :=
  { writeManifestFails := fun _ => true
    shell := fun _ => .completed 0 "" "" }

/-- The `calc` manifest, enabled. -/
def calcManifestOn : PluginManifest :=
  { name := "calc", version := "1", description := "", entry_point := "calc.py",
    permissions := [], dependencies := [], enabled := true }

/-- A loadable module for the `calc` plugin. -/
def calcModule : Module := ⟨[("add", fun _ => .ok "ok")]⟩

/-- The on-disk directory of the `calc` plugin: a parseable manifest and a
loadable entry point `calc.py`. -/
def calcDir : PluginDirContent :=
  { manifestParse := .ok calcManifestOn
    loadModule := fun entry => if entry = "calc.py" then some calcModule else none }

/-- A registry where `calc` is registered, enabled, loaded, and on disk. -/
def stCalcOn : ExecState :=
  { plugins := [("calc", calcManifestOn)]
    plugin_modules := [("calc", calcModule)]
    disk := [("calc", calcDir)] }

/-- Witness for C10: after the failed write, the in-memory flag is flipped
to `false` while disk and modules still show the plugin enabled/loaded. -/
theorem toggle_not_atomic_witness :
    toggle_plugin envWriteFail stCalcOn "calc" false
      = ({ stCalcOn with
            plugins := dictInsert stCalcOn.plugins "calc"
              { calcManifestOn with enabled := false } }, false) :=
  (toggle_not_atomic envWriteFail stCalcOn "calc" false).1 calcManifestOn rfl rfl

/-- C5: starting from a registered, enabled, loaded plugin whose directory
still loads, toggling to disabled then back to enabled round-trips: after
each toggle the persisted flag equals the in-memory flag, the module is gone
after the disable and back after the re-enable, both calls return `true`;
and `toggle_plugin` returns `false` without raising on an unknown name or a
failing manifest write. -/
theorem toggle_roundtrip (env : FSEnv) (st : ExecState) (name : String)
    (m : PluginManifest) (dir : PluginDirContent) (mo mo2 : Module)
    (hm : dictGet? st.plugins name = some m)
    (_hen : m.enabled = true)
    (hmo : dictGet? st.plugin_modules name = some mo)
    (hdir : dictGet? st.disk name = some dir)
    (hload : dir.loadModule m.entry_point = some mo2)
    (hw : env.writeManifestFails name = false) :
    (toggle_plugin env st name false).2 = true
    ∧ (dictGet? (toggle_plugin env st name false).1.plugins name).map
        PluginManifest.enabled = some false
    ∧ manifestFlagOnDisk (toggle_plugin env st name false).1 name = some false
    ∧ dictMem (toggle_plugin env st name false).1.plugin_modules name = false
    ∧ (toggle_plugin env (toggle_plugin env st name false).1 name true).2 = true
    ∧ (dictGet? (toggle_plugin env (toggle_plugin env st name false).1 name
        true).1.plugins name).map PluginManifest.enabled = some true
    ∧ manifestFlagOnDisk (toggle_plugin env
        (toggle_plugin env st name false).1 name true).1 name = some true
    ∧ dictMem (toggle_plugin env (toggle_plugin env st name false).1 name
        true).1.plugin_modules name = true
    ∧ (∀ n2 e2, dictGet? st.plugins n2 = none → toggle_plugin env st n2 e2 = (st, false))
    ∧ (∀ (env2 : FSEnv) n2 e2 m2, dictGet? st.plugins n2 = some m2 →
        env2.writeManifestFails n2 = true → (toggle_plugin env2 st n2 e2).2 = false) := by
  have hmem : dictMem st.plugin_modules name = true := by
    simp [dictMem, hmo]
  have h1 : toggle_plugin env st name false
      = ({ st with
            plugins := dictInsert st.plugins name { m with enabled := false },
            plugin_modules := dictErase st.plugin_modules name,
            disk := dictInsert st.disk name
              { dir with manifestParse := .ok { m with enabled := false } } }, true) := by
    simp [toggle_plugin, hm, hw, diskWriteManifest, hdir, hmem]
  have hget1 : dictGet? (dictInsert st.plugins name { m with enabled := false }) name
      = some { m with enabled := false } := dictGet?_insert_self _ _ _
  have hmem1 : dictMem (dictErase st.plugin_modules name) name = false := by
    simp [dictMem, dictGet?_erase_self]
  have hdir1 : dictGet? (dictInsert st.disk name
      { dir with manifestParse := .ok { m with enabled := false } }) name
      = some { dir with manifestParse := .ok { m with enabled := false } } :=
    dictGet?_insert_self _ _ _
  have h2 : toggle_plugin env (toggle_plugin env st name false).1 name true
      = ({ (toggle_plugin env st name false).1 with
            plugins := dictInsert (dictInsert st.plugins name { m with enabled := false })
              name { m with enabled := true },
            plugin_modules := dictInsert (dictErase st.plugin_modules name) name mo2,
            disk := dictInsert (dictInsert st.disk name
              { dir with manifestParse := .ok { m with enabled := false } }) name
              { dir with manifestParse := .ok { m with enabled := true } } }, true) := by
    rw [h1]
    simp [toggle_plugin, hget1, hw, diskWriteManifest, hdir1, hmem1,
      load_plugin_module, hload, dictGet?_insert_self]
  refine ⟨?_, ?_, ?_, ?_, ?_, ?_, ?_, ?_, ?_, ?_⟩
  · rw [h1]
  · rw [h1]
    simp [hget1]
  · rw [h1]
    simp [manifestFlagOnDisk, hdir1]
  · rw [h1]
    exact hmem1
  · rw [h2]
  · rw [h2]
    simp [dictGet?_insert_self]
  · rw [h2]
    simp [manifestFlagOnDisk, dictGet?_insert_self]
  · rw [h2]
    simp [dictMem, dictGet?_insert_self]
  · intro n2 e2 h
    simp [toggle_plugin, h]
  · intro env2 n2 e2 m2 hm2 hw2
    simp [toggle_plugin, hm2, hw2]

/-- Witness for C5 at the concrete registry `stCalcOn`. -/
theorem toggle_roundtrip_witness :
    dictMem (toggle_plugin envNoop (toggle_plugin envNoop stCalcOn "calc" false).1
      "calc" true).1.plugin_modules "calc" = true :=
  (toggle_roundtrip envNoop stCalcOn "calc" calcManifestOn calcDir calcModule calcModule
    rfl rfl rfl rfl rfl rfl).2.2.2.2.2.2.2.1

/-- The implicit registry invariant: a module is loaded only for a
registered plugin name. -/
def RegInv (st : ExecState) : Prop :=
  ∀ n, dictMem st.plugin_modules n = true → dictMem st.plugins n = true

theorem dictMem_insert_of {α : Type} (d : List (String × α)) (k k' : String) (v : α)
    (h : k = k' ∨ dictMem d k' = true) : dictMem (dictInsert d k v) k' = true := by
  rw [dictMem_insert]
  rcases h with h | h <;> simp [h]

theorem dictMem_insert_elim {α : Type} (d : List (String × α)) (k k' : String) (v : α)
    (h : dictMem (dictInsert d k v) k' = true) : k = k' ∨ dictMem d k' = true := by
  by_cases hk : k = k'
  · exact Or.inl hk
  · rw [dictMem_insert] at h
    right
    simpa [hk] using h

theorem dictMem_erase_elim {α : Type} (d : List (String × α)) (k k' : String)
    (h : dictMem (dictErase d k) k' = true) : dictMem d k' = true := by
  rw [dictMem_erase] at h
  exact (Bool.and_eq_true_iff.mp h).2

theorem load_plugin_preserves_inv (st : ExecState) (dir : PluginDirContent)
    (h : RegInv st) : RegInv (load_plugin st dir) := by
  unfold load_plugin
  split
  · exact h
  · rename_i manifest
    split
    · split
      · rename_i mo hlm
        intro n hn
        simp only at hn ⊢
        rcases dictMem_insert_elim _ _ _ _ hn with h1 | h1
        · exact dictMem_insert_of _ _ _ _ (Or.inl h1)
        · exact dictMem_insert_of _ _ _ _ (Or.inr (h n h1))
      · intro n hn
        simp only at hn ⊢
        exact dictMem_insert_of _ _ _ _ (Or.inr (h n hn))
    · intro n hn
      simp only at hn ⊢
      exact dictMem_insert_of _ _ _ _ (Or.inr (h n hn))

theorem load_plugins_preserves_inv (st : ExecState) (dirs : List PluginDirContent)
    (h : RegInv st) : RegInv (load_plugins st dirs) := by
  induction dirs generalizing st with
  | nil => exact h
  | cons d ds ih => exact ih (load_plugin st d) (load_plugin_preserves_inv st d h)

theorem toggle_plugin_cases (env : FSEnv) (st : ExecState) (name : String) (en : Bool) :
    (dictGet? st.plugins name = none ∧ toggle_plugin env st name en = (st, false))
    ∨ (∃ m, dictGet? st.plugins name = some m
        ∧ (toggle_plugin env st name en).1.plugins
            = dictInsert st.plugins name { m with enabled := en }
        ∧ ((toggle_plugin env st name en).1.plugin_modules = st.plugin_modules
           ∨ (toggle_plugin env st name en).1.plugin_modules
               = dictErase st.plugin_modules name
           ∨ ∃ mo, (toggle_plugin env st name en).1.plugin_modules
               = dictInsert st.plugin_modules name mo)) := by
  cases hg : dictGet? st.plugins name with
  | none => exact Or.inl ⟨rfl, by simp [toggle_plugin, hg]⟩
  | some m =>
    refine Or.inr ⟨m, rfl, ?_⟩
    by_cases hw : env.writeManifestFails name = true
    · constructor
      · simp [toggle_plugin, hg, hw]
      · exact Or.inl (by simp [toggle_plugin, hg, hw])
    · by_cases hb1 : en = true ∧ dictMem st.plugin_modules name = false
      · obtain ⟨hb1a, hb1b⟩ := hb1
        subst hb1a
        cases hlm : load_plugin_module
            { st with
              plugins := dictInsert st.plugins name { m with enabled := true },
              disk := diskWriteManifest st.disk name { m with enabled := true } }
            name { m with enabled := true } with
        | none =>
          constructor
          · simp [toggle_plugin, hg, hw, hb1b, hlm]
          · exact Or.inl (by simp [toggle_plugin, hg, hw, hb1b, hlm])
        | some mo =>
          constructor
          · simp [toggle_plugin, hg, hw, hb1b, hlm]
          · exact Or.inr (Or.inr ⟨mo, by simp [toggle_plugin, hg, hw, hb1b, hlm]⟩)
      · by_cases hb2 : en = false ∧ dictMem st.plugin_modules name = true
        · obtain ⟨hb2a, hb2b⟩ := hb2
          subst hb2a
          constructor
          · simp [toggle_plugin, hg, hw, hb2b]
          · exact Or.inr (Or.inl (by simp [toggle_plugin, hg, hw, hb2b]))
        · constructor
          · simp [toggle_plugin, hg, hw, hb1, hb2]
          · exact Or.inl (by simp [toggle_plugin, hg, hw, hb1, hb2])

theorem install_plugin_cases (st : ExecState) (src : SourceDesc) :
    ((install_plugin st src).1.plugins = st.plugins
      ∧ (install_plugin st src).1.plugin_modules = st.plugin_modules)
    ∨ (∃ st2 : ExecState, st2.plugins = st.plugins
        ∧ st2.plugin_modules = st.plugin_modules
        ∧ (install_plugin st src).1 = load_plugin st2 src.content) := by
  by_cases h1 : src.present = false
  · exact Or.inl (by simp [install_plugin, h1])
  · by_cases h2 : src.hasManifest = false
    · exact Or.inl (by simp [install_plugin, h1, h2])
    · cases hmp : src.content.manifestParse with
      | error e => exact Or.inl (by simp [install_plugin, h1, h2, hmp])
      | ok manifest =>
        by_cases h3 : dictMem st.disk manifest.name = true
        · by_cases h4 : src.rmtreeFails = true
          · exact Or.inl (by simp [install_plugin, h1, h2, hmp, h3, h4])
          · by_cases h5 : src.copyFails = true
            · exact Or.inl (by simp [install_plugin, h1, h2, hmp, h3, h4, h5])
            · refine Or.inr ⟨{ st with disk := dictInsert (dictErase st.disk manifest.name) manifest.name src.content }, rfl, rfl, ?_⟩
              simp [install_plugin, h1, h2, hmp, h3, h4, h5]
        · by_cases h5 : src.copyFails = true
          · exact Or.inl (by simp [install_plugin, h1, h2, hmp, h3, h5])
          · refine Or.inr ⟨{ st with disk := dictInsert st.disk manifest.name src.content },
              rfl, rfl, ?_⟩
            simp [install_plugin, h1, h2, hmp, h3, h5]

/-- C9: every registry operation preserves `plugin_modules ⊆ plugins` —
a module is never loaded under an unregistered name.  (`execute_plugin` and
dispatch-from-text do not modify the registry at all: they return no state.) -/
theorem modules_subset_plugins_invariant (env : FSEnv) (st : ExecState)
    (hinv : RegInv st) :
    (∀ dir, RegInv (load_plugin st dir))
    ∧ (∀ dirs, RegInv (load_plugins st dirs))
    ∧ (∀ name en, RegInv (toggle_plugin env st name en).1)
    ∧ (∀ src, RegInv (install_plugin st src).1) := by
  refine ⟨fun dir => load_plugin_preserves_inv st dir hinv,
    fun dirs => load_plugins_preserves_inv st dirs hinv, ?_, ?_⟩
  · intro name en n hn
    rcases toggle_plugin_cases env st name en with ⟨hg, heq⟩ | ⟨m, hg, hpl, hmod⟩
    · rw [heq] at hn ⊢
      exact hinv n hn
    · rw [hpl]
      apply dictMem_insert_of
      rcases hmod with hmo | hmo | ⟨mo, hmo⟩
      · right
        exact hinv n (hmo ▸ hn)
      · right
        exact hinv n (dictMem_erase_elim _ _ _ (hmo ▸ hn))
      · rw [hmo] at hn
        rcases dictMem_insert_elim _ _ _ _ hn with h1 | h1
        · exact Or.inl h1
        · exact Or.inr (hinv n h1)
  · intro src n hn
    rcases install_plugin_cases st src with ⟨hpl, hpm⟩ | ⟨st2, hpl, hpm, heq⟩
    · rw [hpm] at hn
      rw [hpl]
      exact hinv n hn
    · rw [heq] at hn ⊢
      have hinv2 : RegInv st2 := by
        intro n2 hn2
        rw [hpl]
        exact hinv n2 (by rwa [hpm] at hn2)
      exact load_plugin_preserves_inv st2 src.content hinv2 n hn

/-- Witness for C9: the invariant holds for `stCalcOn` and is preserved by a
toggle on it. -/
theorem modules_subset_plugins_invariant_witness :
    RegInv (toggle_plugin envNoop stCalcOn "calc" false).1 :=
  (modules_subset_plugins_invariant envNoop stCalcOn (by
    intro n hn
    by_cases h : "calc" = n
    · subst h; rfl
    · simp [stCalcOn, dictMem, dictGet?, h] at hn)).2.2.1 "calc" false

/-! ### LLM router (`src/orchestrator/llm_router.py`) -/

/-- Router state: the keys of the initialized `clients` dict (in insertion
order) and the `llm.model_preferences` table from configuration. -/
structure RouterState where
  clients : List String
  model_preferences : List (String × String)

/-- The fixed `model_map` of `_is_model_available`. -/
def model_map : List (String × String) :=
  [("claude", "claude"), ("gpt4", "openai"), ("openai", "openai"), ("gemini", "gemini")]

/-- Model of `LLMRouter._is_model_available`: map the model to its provider and test
membership among the initialized clients (an unmapped model yields `None`,
and `None in clients` is `False`). -/
def is_model_available (rt : RouterState) (model : String) : Bool :=
  match dictGet? model_map model with
  | some provider => rt.clients.contains provider
  | none => false

def coding_keywords : List String :=
  ["code", "program", "function", "debug", "api", "sql", "python", "javascript"]

def reasoning_keywords : List String :=
  ["analyze", "reason", "logic", "problem", "solve", "strategy", "plan"]

def creative_keywords : List String :=
  ["write", "create", "story", "poem", "creative", "brainstorm", "imagine"]

/-- Model of `LLMRouter._classify_task`: keyword membership over the lowered prompt,
coding before reasoning before creative, defaulting to reasoning. -/
def classify_task (prompt : String) : String :=
  if coding_keywords.any (fun k => pyIn k (pyLower prompt)) then "coding"
  else if reasoning_keywords.any (fun k => pyIn k (pyLower prompt)) then "reasoning"
  else if creative_keywords.any (fun k => pyIn k (pyLower prompt)) then "creative"
  else "reasoning"

/-- Model of `LLMRouter.select_model`: honor an explicit available request, otherwise
classify, consult the preference table (defaulting to `claude`), fall back to
the first client, and raise only when no client exists. -/
def select_model (rt : RouterState) (requested_model prompt : String) :
    Except String String :=
  if requested_model ≠ "auto" ∧ is_model_available rt requested_model = true then
    .ok requested_model
  else
    let preferred_model := (dictGet? rt.model_preferences (classify_task prompt)).getD "claude"
    if is_model_available rt preferred_model then .ok preferred_model
    else
      match rt.clients with
      | [] => .error "No LLM models available - check API key configuration"
      | c :: _ => .ok c

theorem is_model_available_clients_ne_nil (rt : RouterState) (model : String)
    (h : is_model_available rt model = true) : rt.clients ≠ [] := by
  unfold is_model_available at h
  cases hg : dictGet? model_map model with
  | none => rw [hg] at h; exact absurd h (by simp)
  | some provider =>
    rw [hg] at h
    intro hnil
    rw [hnil] at h
    exact absurd h (by simp)

/-- C6: model selection honors an explicit, available request; otherwise it
classifies the prompt into one of coding/reasoning/creative, returns the
preference-table model for that class when available, else the first
available provider, and errors exactly when no clients are configured. -/
theorem select_model_spec (rt : RouterState) (requested prompt : String) :
    (requested ≠ "auto" → is_model_available rt requested = true →
      select_model rt requested prompt = .ok requested)
    ∧ ((requested = "auto" ∨ is_model_available rt requested = false) →
      (is_model_available rt
          ((dictGet? rt.model_preferences (classify_task prompt)).getD "claude") = true →
        select_model rt requested prompt
          = .ok ((dictGet? rt.model_preferences (classify_task prompt)).getD "claude"))
      ∧ (is_model_available rt
          ((dictGet? rt.model_preferences (classify_task prompt)).getD "claude") = false →
        (∀ c cs, rt.clients = c :: cs → select_model rt requested prompt = .ok c)
        ∧ (rt.clients = [] → select_model rt requested prompt
            = .error "No LLM models available - check API key configuration")))
    ∧ ((∃ mdl, select_model rt requested prompt = .ok mdl) ↔ rt.clients ≠ [])
    ∧ (classify_task prompt = "coding" ∨ classify_task prompt = "reasoning"
        ∨ classify_task prompt = "creative") := by
  have hcls : classify_task prompt = "coding" ∨ classify_task prompt = "reasoning"
      ∨ classify_task prompt = "creative" := by
    unfold classify_task
    split_ifs <;> simp
  refine ⟨?_, ?_, ?_, hcls⟩
  · intro hne hav
    simp [select_model, hne, hav]
  · intro hauto
    have hcond : ¬ (requested ≠ "auto" ∧ is_model_available rt requested = true) := by
      rcases hauto with h | h
      · intro hc; exact hc.1 h
      · intro hc; rw [h] at hc; exact absurd hc.2 (by simp)
    constructor
    · intro hav
      simp [select_model, hcond, hav]
    · intro hnav
      constructor
      · intro c cs hc
        simp [select_model, hcond, hnav, hc]
      · intro hc
        simp [select_model, hcond, hnav, hc]
  · constructor
    · rintro ⟨mdl, hmdl⟩
      unfold select_model at hmdl
      by_cases hc : requested ≠ "auto" ∧ is_model_available rt requested = true
      · exact is_model_available_clients_ne_nil rt requested hc.2
      · rw [if_neg hc] at hmdl
        by_cases hav : is_model_available rt
            ((dictGet? rt.model_preferences (classify_task prompt)).getD "claude") = true
        · exact is_model_available_clients_ne_nil rt _ hav
        · simp only [hav] at hmdl
          cases hcl : rt.clients with
          | nil =>
            rw [hcl] at hmdl
            simp at hmdl
          | cons c cs => simp [hcl]
    · intro hne
      cases hcl : rt.clients with
      | nil => exact absurd hcl hne
      | cons c cs =>
        by_cases hc : requested ≠ "auto" ∧ is_model_available rt requested = true
        · exact ⟨requested, by simp [select_model, hc.1, hc.2]⟩
        · by_cases hav : is_model_available rt
              ((dictGet? rt.model_preferences (classify_task prompt)).getD "claude") = true
          · exact ⟨(dictGet? rt.model_preferences (classify_task prompt)).getD "claude",
              by simp [select_model, hc, hav]⟩
          · exact ⟨c, by simp [select_model, hc, hav, hcl]⟩

/-- Witness for C6: with only an `openai` client and an empty preference
table, a request for the unavailable `claude` model falls back and selection
still succeeds. -/
theorem select_model_spec_witness :
    ∃ mdl, select_model { clients := ["openai"], model_preferences := [] }
      "claude" "hello" = .ok mdl :=
  (select_model_spec { clients := ["openai"], model_preferences := [] }
    "claude" "hello").2.2.1.mpr (by decide)

/-! ### Task orchestrator (`src/orchestrator/core.py`)

`execute_task` is modelled as a pipeline of stage functions, one per step of
the source's `try` block, threading the active map, the completed list, the
task context and a trace recording which external steps were invoked (in
order).  The collaborators (memory search/store, router select/execute,
plugin dispatch) are an environment of functions; a raised exception is an
`Except.error` with its message.  `execute_from_response` never raises (its
handlers catch internally), so `dispatch` is total.
-/

inductive MetaVal where
  | s (v : String)
  | n (v : Nat)
deriving DecidableEq, Repr

/-- The `TaskContext` dataclass (`created_at` as an abstract tick). -/
structure TaskContext where
  task_id : String
  prompt : String
  model : String
  use_memory : Bool
  enable_plugins : Bool
  verbose : Bool
  created_at : Nat
  metadata : List (String × MetaVal)
deriving DecidableEq, Repr

structure OrchState where
  active_tasks : List (String × TaskContext)
  completed_tasks : List TaskContext
deriving DecidableEq, Repr

/-- One tag per externally visible step of `execute_task`. -/
inductive StepTag where
  | memSearch
  | modelSelect
  | llmExec
  | pluginDispatch
  | memStore
deriving DecidableEq, Repr

structure OrchEnv where
  search : String → Except String (List String)
  selectModel : String → String → Except String String
  llmExecute : String → String → Except String String
  dispatch : String → Option String
  store : String → String → List (String × MetaVal) → Except String Unit
  availablePlugins : List String

/-- The `Memory {i+1}: {mem}` context block. -/
def relevantContext (memories : List String) : String :=
  if memories.isEmpty then ""
  else pyJoin "\n" (memories.enum.map
    (fun im => "Memory " ++ toString (im.1 + 1) ++ ": " ++ im.2))

/-- Model of `TaskOrchestrator._build_enhanced_prompt`. -/
def build_enhanced_prompt (availablePlugins : List String) (prompt context : String)
    (enable_plugins : Bool) : String :=
  let enhanced := if context ≠ "" then
    "Relevant context:\n" ++ context ++ "\n\nTask: " ++ prompt
  else prompt
  if enable_plugins ∧ availablePlugins ≠ [] then
    enhanced ++ "\n\nAvailable tools: " ++ pyJoin ", " availablePlugins
  else enhanced

def tool_indicators : List String :=
  ["execute:", "run:", "tool:", "command:", "search:", "fetch:", "calculate:", "analyze:"]

/-- Model of `TaskOrchestrator._requires_plugin_execution`. -/
def requires_plugin_execution (response : String) : Bool :=
  tool_indicators.any (fun ind => pyIn ind (pyLower response))

/-- The context with its metadata dict replaced (the source mutates the dict of
the shared context object in place). -/
def setMetadata (ctx : TaskContext) (md : List (String × MetaVal)) : TaskContext :=
  { ctx with metadata := md }

/-- The context after the success bookkeeping
(`status`/`response_length`/`model_used`). -/
def completedCtx (ctx : TaskContext) (selected response : String) : TaskContext :=
  setMetadata ctx
    (dictInsert
      (dictInsert (dictInsert ctx.metadata "status" (MetaVal.s "completed"))
        "response_length" (MetaVal.n response.length))
      "model_used" (MetaVal.s selected))

/-- The context after the failure bookkeeping (`status`/`error`). -/
def failedCtx (ctx : TaskContext) (e : String) : TaskContext :=
  setMetadata ctx
    (dictInsert (dictInsert ctx.metadata "status" (MetaVal.s "failed"))
      "error" (MetaVal.s e))

/-- Success epilogue: record the metadata, append the context to the
completed list, drop it from the active map, and return the response. -/
def finishSuccess (active : List (String × TaskContext)) (completed : List TaskContext)
    (ctx : TaskContext) (selected response : String) (trace : List StepTag) :
    OrchState × Except String String × List StepTag :=
  (OrchState.mk (dictErase active ctx.task_id)
    (completed ++ [completedCtx ctx selected response]),
   Except.ok response, trace)

/-- The `except` clause: record the metadata, append to completed, drop from
active, and re-raise the original exception. -/
def finishFail (active : List (String × TaskContext)) (completed : List TaskContext)
    (ctx : TaskContext) (e : String) (trace : List StepTag) :
    OrchState × Except String String × List StepTag :=
  (OrchState.mk (dictErase active ctx.task_id) (completed ++ [failedCtx ctx e]),
   Except.error e, trace)

def stageStore (env : OrchEnv) (completed : List TaskContext)
    (active : List (String × TaskContext)) (ctx : TaskContext)
    (selected response : String) (trace : List StepTag) :
    OrchState × Except String String × List StepTag :=
  if ctx.use_memory then
    match env.store ctx.prompt response ctx.metadata with
    | .error e => finishFail active completed ctx e (trace ++ [.memStore])
    | .ok _ => finishSuccess active completed ctx selected response (trace ++ [.memStore])
  else finishSuccess active completed ctx selected response trace

def stageDispatch (env : OrchEnv) (completed : List TaskContext)
    (active : List (String × TaskContext)) (ctx : TaskContext)
    (selected response : String) (trace : List StepTag) :
    OrchState × Except String String × List StepTag :=
  if ctx.enable_plugins ∧ requires_plugin_execution response = true then
    stageStore env completed active ctx selected
      (match env.dispatch response with
       | some r =>
         if r ≠ "" then response ++ "\n\nPlugin Execution Result:\n" ++ r else response
       | none => response)
      (trace ++ [.pluginDispatch])
  else stageStore env completed active ctx selected response trace

def stageExec (env : OrchEnv) (completed : List TaskContext)
    (active : List (String × TaskContext)) (ctx : TaskContext)
    (relevant_context selected : String) (trace : List StepTag) :
    OrchState × Except String String × List StepTag :=
  match env.llmExecute selected (build_enhanced_prompt env.availablePlugins ctx.prompt
      relevant_context ctx.enable_plugins) with
  | .error e => finishFail active completed ctx e (trace ++ [.llmExec])
  | .ok response => stageDispatch env completed active ctx selected response
      (trace ++ [.llmExec])

def stageSelect (env : OrchEnv) (completed : List TaskContext)
    (active : List (String × TaskContext)) (ctx : TaskContext)
    (relevant_context : String) (trace : List StepTag) :
    OrchState × Except String String × List StepTag :=
  match env.selectModel ctx.model ctx.prompt with
  | .error e => finishFail active completed ctx e (trace ++ [.modelSelect])
  | .ok selected => stageExec env completed active ctx relevant_context selected
      (trace ++ [.modelSelect])

/-- Model of `TaskOrchestrator.execute_task`: create the context, insert it into the
active map, then run memory retrieval → model selection → model call →
optional plugin dispatch → memory store, failing fast to the `except`
epilogue on the first raised step. -/
def execute_task (env : OrchEnv) (st : OrchState) (task_id : String) (now : Nat)
    (prompt model : String) (use_memory enable_plugins verbose : Bool) :
    OrchState × Except String String × List StepTag :=
  let ctx : TaskContext :=
    TaskContext.mk task_id prompt model use_memory enable_plugins verbose now []
  let active := dictInsert st.active_tasks task_id ctx
  if use_memory then
    match env.search prompt with
    | .error e => finishFail active st.completed_tasks ctx e [.memSearch]
    | .ok memories =>
      stageSelect env st.completed_tasks active ctx (relevantContext memories) [.memSearch]
  else stageSelect env st.completed_tasks active ctx "" []

/-- What every task run guarantees: the context leaves the active map, lands
exactly once at the end of the completed list with the outcome recorded in
its metadata (the raised error re-surfacing as the result), and no step tag
repeats in the trace. -/
def FinishProp (active : List (String × TaskContext)) (completed : List TaskContext)
    (id : String) (out : OrchState × Except String String × List StepTag) : Prop :=
  out.1.active_tasks = dictErase active id
  ∧ (∃ c, out.1.completed_tasks = completed ++ [c] ∧ c.task_id = id
      ∧ (∀ r, out.2.1 = .ok r → dictGet? c.metadata "status" = some (.s "completed"))
      ∧ (∀ e, out.2.1 = .error e → dictGet? c.metadata "status" = some (.s "failed")
          ∧ dictGet? c.metadata "error" = some (.s e)))
  ∧ out.2.2.Nodup

theorem finishFail_prop (active : List (String × TaskContext))
    (completed : List TaskContext) (ctx : TaskContext) (e : String)
    (trace : List StepTag) (hnd : trace.Nodup) :
    FinishProp active completed ctx.task_id (finishFail active completed ctx e trace) := by
  unfold FinishProp finishFail
  refine ⟨rfl, ⟨failedCtx ctx e, rfl, rfl, ?_, ?_⟩, hnd⟩
  · intro r hr
    exact absurd hr (by simp)
  · intro e' he'
    have he : e' = e := by simpa using he'.symm
    subst he
    constructor
    · show dictGet? (failedCtx ctx e').metadata "status" = some (MetaVal.s "failed")
      unfold failedCtx setMetadata
      rw [show ({ ctx with metadata := dictInsert (dictInsert ctx.metadata "status"
        (MetaVal.s "failed")) "error" (MetaVal.s e') } : TaskContext).metadata
        = dictInsert (dictInsert ctx.metadata "status" (MetaVal.s "failed"))
          "error" (MetaVal.s e') from rfl]
      rw [dictGet?_insert_ne _ _ _ _ (by decide)]
      exact dictGet?_insert_self _ _ _
    · show dictGet? (failedCtx ctx e').metadata "error" = some (MetaVal.s e')
      unfold failedCtx setMetadata
      exact dictGet?_insert_self _ _ _

theorem finishSuccess_prop (active : List (String × TaskContext))
    (completed : List TaskContext) (ctx : TaskContext) (selected response : String)
    (trace : List StepTag) (hnd : trace.Nodup) :
    FinishProp active completed ctx.task_id
      (finishSuccess active completed ctx selected response trace) := by
  unfold FinishProp finishSuccess
  refine ⟨rfl, ⟨completedCtx ctx selected response, rfl, rfl, ?_, ?_⟩, hnd⟩
  · intro r hr
    show dictGet? (completedCtx ctx selected response).metadata "status"
      = some (MetaVal.s "completed")
    unfold completedCtx setMetadata
    rw [dictGet?_insert_ne _ _ _ _ (by decide), dictGet?_insert_ne _ _ _ _ (by decide)]
    exact dictGet?_insert_self _ _ _
  · intro e' he'
    exact absurd he' (by simp)

theorem stageStore_prop (env : OrchEnv) (completed : List TaskContext)
    (active : List (String × TaskContext)) (ctx : TaskContext)
    (selected response : String) (trace : List StepTag)
    (htr : trace.Sublist [StepTag.memSearch, StepTag.modelSelect, StepTag.llmExec,
      StepTag.pluginDispatch]) :
    FinishProp active completed ctx.task_id
      (stageStore env completed active ctx selected response trace) := by
  have hnd5 : trace ++ [StepTag.memStore] |>.Nodup :=
    List.Nodup.sublist (htr.append (List.Sublist.refl [StepTag.memStore])) (by decide)
  have hnd4 : trace.Nodup := List.Nodup.sublist htr (by decide)
  unfold stageStore
  split
  · cases hst : env.store ctx.prompt response ctx.metadata with
    | error e => exact finishFail_prop _ _ _ _ _ hnd5
    | ok u => exact finishSuccess_prop _ _ _ _ _ _ hnd5
  · exact finishSuccess_prop _ _ _ _ _ _ hnd4

theorem stageDispatch_prop (env : OrchEnv) (completed : List TaskContext)
    (active : List (String × TaskContext)) (ctx : TaskContext)
    (selected response : String) (trace : List StepTag)
    (htr : trace.Sublist [StepTag.memSearch, StepTag.modelSelect, StepTag.llmExec]) :
    FinishProp active completed ctx.task_id
      (stageDispatch env completed active ctx selected response trace) := by
  unfold stageDispatch
  split
  · exact stageStore_prop _ _ _ _ _ _ _
      (htr.append (List.Sublist.refl [StepTag.pluginDispatch]))
  · exact stageStore_prop _ _ _ _ _ _ _ (htr.trans (by decide))

theorem stageExec_prop (env : OrchEnv) (completed : List TaskContext)
    (active : List (String × TaskContext)) (ctx : TaskContext)
    (relevant_context selected : String) (trace : List StepTag)
    (htr : trace.Sublist [StepTag.memSearch, StepTag.modelSelect]) :
    FinishProp active completed ctx.task_id
      (stageExec env completed active ctx relevant_context selected trace) := by
  unfold stageExec
  cases hex : env.llmExecute selected (build_enhanced_prompt env.availablePlugins
      ctx.prompt relevant_context ctx.enable_plugins) with
  | error e =>
    refine finishFail_prop _ _ _ _ _ ?_
    exact List.Nodup.sublist (htr.append (List.Sublist.refl [StepTag.llmExec])) (by decide)
  | ok response =>
    exact stageDispatch_prop _ _ _ _ _ _ _
      ((htr.append (List.Sublist.refl [StepTag.llmExec])).trans (by decide))

theorem stageSelect_prop (env : OrchEnv) (completed : List TaskContext)
    (active : List (String × TaskContext)) (ctx : TaskContext)
    (relevant_context : String) (trace : List StepTag)
    (htr : trace.Sublist [StepTag.memSearch]) :
    FinishProp active completed ctx.task_id
      (stageSelect env completed active ctx relevant_context trace) := by
  unfold stageSelect
  cases hsel : env.selectModel ctx.model ctx.prompt with
  | error e =>
    refine finishFail_prop _ _ _ _ _ ?_
    exact List.Nodup.sublist (htr.append (List.Sublist.refl [StepTag.modelSelect]))
      (by decide)
  | ok selected =>
    exact stageExec_prop _ _ _ _ _ _ _
      (htr.append (List.Sublist.refl [StepTag.modelSelect]))

theorem dictErase_insert_self {α : Type} (d : List (String × α)) (k : String) (v : α) :
    dictErase (dictInsert d k v) k = dictErase d k := by
  induction d with
  | nil => simp [dictInsert, dictErase]
  | cons hd tl ih =>
    obtain ⟨k₀, v₀⟩ := hd
    by_cases h : k₀ = k <;> simp [dictInsert, dictErase, h, ih]

/-- C7: every task run moves the context from the active map to the end of
the completed list (success and failure alike), records the outcome — on
failure the error string lands in the metadata and the same exception is the
result — never runs a step twice, and a failing first step (memory search)
ends the run immediately. -/
theorem execute_task_spec (env : OrchEnv) (st : OrchState) (task_id : String)
    (now : Nat) (prompt model : String) (use_memory enable_plugins verbose : Bool) :
    FinishProp (dictInsert st.active_tasks task_id
        (TaskContext.mk task_id prompt model use_memory enable_plugins verbose now []))
      st.completed_tasks task_id
      (execute_task env st task_id now prompt model use_memory enable_plugins verbose)
    ∧ (execute_task env st task_id now prompt model use_memory enable_plugins
        verbose).1.active_tasks = dictErase st.active_tasks task_id
    ∧ dictGet? (execute_task env st task_id now prompt model use_memory enable_plugins
        verbose).1.active_tasks task_id = none
    ∧ (use_memory = true → ∀ e, env.search prompt = .error e →
        (execute_task env st task_id now prompt model use_memory enable_plugins
          verbose).2.1 = .error e
        ∧ (execute_task env st task_id now prompt model use_memory enable_plugins
          verbose).2.2 = [StepTag.memSearch]) := by
  have hfp : FinishProp (dictInsert st.active_tasks task_id
      (TaskContext.mk task_id prompt model use_memory enable_plugins verbose now []))
      st.completed_tasks task_id
      (execute_task env st task_id now prompt model use_memory enable_plugins verbose) := by
    unfold execute_task
    by_cases hum : use_memory = true
    · rw [if_pos hum]
      cases hse : env.search prompt with
      | error e => exact finishFail_prop _ _ _ _ _ (by decide)
      | ok memories => exact stageSelect_prop _ _ _ _ _ _ (List.Sublist.refl _)
    · rw [if_neg hum]
      exact stageSelect_prop _ _ _ _ _ _ (List.nil_sublist _)
  have hact : (execute_task env st task_id now prompt model use_memory enable_plugins
      verbose).1.active_tasks = dictErase st.active_tasks task_id := by
    rw [hfp.1, dictErase_insert_self]
  refine ⟨hfp, hact, ?_, ?_⟩
  · rw [hact]
    exact dictGet?_erase_self _ _
  · intro hum e he
    constructor <;> simp [execute_task, hum, he, finishFail]

/-- A memory-search environment that always raises, for the witness. -/
def orchEnvBoom : OrchEnv :=
  { search := fun _ => .error "boom"
    selectModel := fun _ _ => .ok "claude"
    llmExecute := fun _ _ => .ok "hi"
    dispatch := fun _ => none
    store := fun _ _ _ => .ok ()
    availablePlugins := [] }

/-- Witness for C7: a failing memory search re-raises and stops after the
first step. -/
theorem execute_task_spec_witness :
    (execute_task orchEnvBoom { active_tasks := [], completed_tasks := [] }
      "id1" 0 "p" "auto" true true false).2.1 = .error "boom"
    ∧ (execute_task orchEnvBoom { active_tasks := [], completed_tasks := [] }
      "id1" 0 "p" "auto" true true false).2.2 = [StepTag.memSearch] :=
  (execute_task_spec orchEnvBoom { active_tasks := [], completed_tasks := [] }
    "id1" 0 "p" "auto" true true false).2.2.2 rfl "boom" rfl

end Alfred
